import Mathlib

/-!
# Kirigami widgets: page pool, avatar helper, columns view

A shallow embedding of `src/src/pagepool.cpp`, `src/src/avatar.cpp` and
`src/src/columnsview.cpp`.  Objects owned by the GUI toolkit are addresses
(`ItemId`); what the toolkit computes (URL resolution, component loading,
Unicode tables, hashing, scene geometry) enters as a record of functions.
Signal emission has no reader in the embedded functions and is left out of the
state; for the page pool so are the object-ownership flag and the
deferred-deletion queue.
-/

namespace Kirigami

/-! ## Page pool (`src/src/pagepool.cpp`) -/

/-- A `QUrl`, kept as its text. -/
abbrev QUrl := String

/-- The address of a live `QQuickItem`. -/
abbrev ItemId := Nat

/-- The values of `QQmlComponent::Status`. -/
inductive Status where
  | Null
  | Ready
  | Loading
  | Error
  deriving DecidableEq, Repr

/-- What `QQmlComponent::create` hands back: nothing, an object that is no
visual item, or a visual item. -/
inductive Created where
  | failed
  | nonItem
  | item
  deriving DecidableEq, Repr

/-- The part of a `QQmlComponent` that the pool reads. -/
structure QQmlComponent where
  url : QUrl
  status : Status
  product : Created
  deriving DecidableEq, Repr

/-- The declarative engine as the pool sees it: the scheme of a URL, the
context's URL resolution, and the component a URL loads to. -/
structure Engine where
  scheme : QUrl → String
  ctxResolvedUrl : QUrl → QUrl
  newComponent : QUrl → QQmlComponent

/-- A `QHash` as an association list with unique keys, newest binding first. -/
abbrev QHash (κ ν : Type) := List (κ × ν)

/-- The hash without the bindings of key `k`: `QHash::remove`. -/
def QHash.remove {κ ν : Type} [DecidableEq κ] (h : QHash κ ν) (k : κ) : QHash κ ν :=
  h.filter (fun kv => decide (kv.1 ≠ k))

/-- The binding of key `k`, if any: `QHash::value`, with `none` for the
default-constructed value. -/
def QHash.value {κ ν : Type} [DecidableEq κ] (h : QHash κ ν) (k : κ) : Option ν :=
  (h.find? (fun kv => decide (kv.1 = k))).map Prod.snd

/-- Whether key `k` is bound: `QHash::contains`. -/
def QHash.contains {κ ν : Type} [DecidableEq κ] (h : QHash κ ν) (k : κ) : Bool :=
  (QHash.value h k).isSome

/-- The hash with `k` bound to `v`: `h[k] = v`. -/
def QHash.insert {κ ν : Type} [DecidableEq κ] (h : QHash κ ν) (k : κ) (v : ν) : QHash κ ν :=
  (k, v) :: QHash.remove h k

/-- The members of `PagePool`, with the next free object address. -/
structure PagePool where
  m_lastLoadedUrl : QUrl
  m_lastLoadedItem : Option ItemId
  m_componentForUrl : QHash QUrl QQmlComponent
  m_itemForUrl : QHash QUrl ItemId
  m_urlForItem : QHash ItemId QUrl
  m_cachePages : Bool
  pendingLoads : List QQmlComponent
  nextId : ItemId
  deriving DecidableEq, Repr

/-- A pool as constructed: nothing loaded, nothing cached. -/
def PagePool.fresh (cache : Bool) : PagePool :=
  { m_lastLoadedUrl := "", m_lastLoadedItem := none, m_componentForUrl := [],
    m_itemForUrl := [], m_urlForItem := [], m_cachePages := cache,
    pendingLoads := [], nextId := 0 }

/-- `PagePool::setCachePages`. -/
def setCachePages (p : PagePool) (cache : Bool) : PagePool :=
  if cache = p.m_cachePages then p
  else if cache then
    { p with m_componentForUrl := [], m_itemForUrl := [], m_cachePages := cache }
  else
    { p with m_cachePages := cache }

/-- `PagePool::resolvedUrl`. -/
def resolvedUrl (env : Engine) (stringUrl : String) : QUrl :=
  if (env.scheme stringUrl).isEmpty then env.ctxResolvedUrl stringUrl else stringUrl

/-- `PagePool::createFromComponent`: instantiate the component; a new visual
item becomes the last loaded item and, with caching on, the cached item of the
component's URL. -/
def createFromComponent (p : PagePool) (component : QQmlComponent) :
    PagePool × Option ItemId :=
  match component.product with
  | Created.failed => (p, none)
  | Created.nonItem => ({ p with nextId := p.nextId + 1 }, none)
  | Created.item =>
    let item := p.nextId
    let p1 := { p with m_lastLoadedItem := some item, nextId := p.nextId + 1 }
    if p1.m_cachePages then
      ({ p1 with m_itemForUrl := QHash.insert p1.m_itemForUrl component.url item }, some item)
    else
      (p1, some item)

/-- The item `PagePool::loadPage` finds before it loads anything: the last
loaded item when the URL is the last loaded URL, else the cached item. -/
def foundItem (p : PagePool) (actualUrl : QUrl) : Option ItemId :=
  if actualUrl = p.m_lastLoadedUrl ∧ p.m_lastLoadedItem.isSome then
    p.m_lastLoadedItem
  else if QHash.contains p.m_itemForUrl actualUrl then
    QHash.value p.m_itemForUrl actualUrl
  else
    none

/-- The component `PagePool::loadPage` goes on with when it found no item:
the one kept for the URL, else a new one from the engine. -/
def componentFor (env : Engine) (p : PagePool) (actualUrl : QUrl) : QQmlComponent :=
  match QHash.value p.m_componentForUrl actualUrl with
  | some c => c
  | none => env.newComponent actualUrl

/-- `PagePool::loadPage`; `callable` is `callback.isCallable()`.  The result is
the new pool and the returned item (`none` for a null pointer). -/
def loadPage (env : Engine) (p : PagePool) (url : String) (callable : Bool) :
    PagePool × Option ItemId :=
  let actualUrl := resolvedUrl env url
  match foundItem p actualUrl with
  | some found =>
    if callable then
      ({ p with m_lastLoadedUrl := actualUrl }, none)
    else
      ({ p with m_lastLoadedUrl := actualUrl }, some found)
  | none =>
    let component := componentFor env p actualUrl
    if component.status = Status.Loading then
      if !callable then
        ({ p with m_componentForUrl := QHash.remove p.m_componentForUrl actualUrl }, none)
      else
        ({ p with pendingLoads := component :: p.pendingLoads }, none)
    else if component.status ≠ Status.Ready then
      (p, none)
    else
      let r := createFromComponent p component
      let p2 :=
        if r.1.m_cachePages then r.1
        else { r.1 with m_componentForUrl :=
                 QHash.insert r.1.m_componentForUrl component.url component }
      if callable then
        ({ p2 with m_lastLoadedUrl := actualUrl }, none)
      else
        ({ p2 with m_lastLoadedUrl := actualUrl }, r.2)

/-- The slot `loadPage` connects to `statusChanged` of a loading component. -/
def onStatusChanged (p : PagePool) (component : QQmlComponent) (status : Status) : PagePool :=
  if status ≠ Status.Ready then
    { p with m_componentForUrl := QHash.remove p.m_componentForUrl component.url }
  else
    let r := createFromComponent p component
    if r.1.m_cachePages then r.1
    else { r.1 with m_componentForUrl :=
             QHash.insert r.1.m_componentForUrl component.url component }

/-- A run of `loadPage` calls without a callback, from pool `p`: the items the
calls return, in order. -/
def loadPages (env : Engine) : PagePool → List String → List (Option ItemId)
  | _, [] => []
  | p, url :: rest =>
    let r := loadPage env p url false
    r.2 :: loadPages env r.1 rest

/-- An engine on which every load fails: each URL is a component in the
error state. -/
def brokenEngine : Engine :=
  { scheme := fun _ => "file",
    ctxResolvedUrl := fun u => u,
    newComponent := fun u => { url := u, status := Status.Error, product := Created.failed } }

/-- An engine on which every load succeeds at once: absolute URLs, each one
a ready component that instantiates a visual item. -/
def readyEngine : Engine :=
  { scheme := fun _ => "file",
    ctxResolvedUrl := fun u => u,
    newComponent := fun u => { url := u, status := Status.Ready, product := Created.item } }

/-- The `QVariant` that `contains` and `deletePage` take: a visual item, a
string, or a value that converts to neither. -/
inductive QVariant where
  | item (i : ItemId)
  | string (s : String)
  | other
  deriving DecidableEq, Repr

/-- `PagePool::urlForPage`: the URL kept for the item, the empty URL if there
is none. -/
def urlForPage (p : PagePool) (item : ItemId) : QUrl :=
  (QHash.value p.m_urlForItem item).getD ""

/-- `PagePool::contains`. -/
def PagePool.contains (p : PagePool) (env : Engine) (page : QVariant) : Bool :=
  match page with
  | QVariant.item i => QHash.contains p.m_urlForItem i
  | QVariant.string s => QHash.contains p.m_itemForUrl (resolvedUrl env s)
  | QVariant.other => false

/-- `PagePool::deletePage`. -/
def deletePage (env : Engine) (p : PagePool) (page : QVariant) : PagePool :=
  if !(p.contains env page) then p
  else
    let item : Option ItemId :=
      match page with
      | QVariant.item i => some i
      | QVariant.string url =>
        if url.isEmpty then none else QHash.value p.m_itemForUrl (resolvedUrl env url)
      | QVariant.other => none
    match item with
    | none => p
    | some item =>
      let url := QHash.value p.m_urlForItem item |>.getD ""
      if url.isEmpty then p
      else
        { p with m_itemForUrl := QHash.remove p.m_itemForUrl url,
                 m_urlForItem := QHash.remove p.m_urlForItem item }

/-! ## Avatar helper (`src/src/avatar.cpp`) -/

/-- A `QChar`: one UTF-16 code unit. -/
abbrev QChar := Nat

/-- A `QString`: a sequence of UTF-16 code units. -/
abbrev QString := List QChar

/-- A `QColor`, kept as its `0xRRGGBB` value. -/
abbrev QColor := Nat

/-- The values of `QChar::Script` that the helper names, and some of the
others. -/
inductive Script where
  | Unknown
  | Inherited
  | Common
  | Latin
  | Greek
  | Cyrillic
  | Han
  | Hangul
  deriving DecidableEq, Repr

/-- The toolkit functions the avatar helper calls: NFD normalization
(`QString::normalized`), `QChar::script`, the success flag of
`QString::toFloat`, `qHash` of a string, and `QQuickStyle::name`. -/
structure Toolkit where
  normalized : QString → QString
  script : QChar → Script
  toFloatOk : QString → Bool
  qHash : QString → Nat
  styleName : String

/-- The space character, `QLatin1Char(' ')`. -/
def space : QChar := 0x20

/-- The free function `contains(str, s)`: some code unit of `str` has script
`s`. -/
def contains (tk : Toolkit) : QString → Script → Bool
  | [], _ => false
  | rune :: rest, s => if tk.script rune = s then true else contains tk rest s

/-- `QString::splitRef(sep)`, empty parts kept: the tokens between the
occurrences of `sep`, one more than there are separators. -/
def splitRef (sep : QChar) : QString → List QString
  | [] => [[]]
  | c :: rest =>
    if c = sep then [] :: splitRef sep rest
    else
      match splitRef sep rest with
      | [] => [[c]]
      | tok :: toks => (c :: tok) :: toks

/-- `front()` of a string or string reference, and `operator[](0)`: the first
code unit; `none` on an empty string, where the access is out of bounds. -/
def front (s : QString) : Option QChar :=
  s.head?

/-- `AvatarPrivate::initialsFromString`.  The result is `none` where the code
reads the first code unit of an empty string. -/
def initialsFromString (tk : Toolkit) (string : QString) : Option QString :=
  if string.isEmpty then some []
  else
    let normalized := tk.normalized string
    if contains tk normalized Script.Han || contains tk normalized Script.Hangul then
      (front normalized).map (fun c => [c])
    else if space ∈ normalized then
      let split := splitRef space normalized
      match split.head?, split.getLast? with
      | some first, some last =>
        if first.isEmpty then
          (front last).map (fun c => [c])
        else if last.isEmpty then
          (front first).map (fun c => [c])
        else
          match front first, front last with
          | some f, some l => some [f, l]
          | _, _ => none
      | _, _ => none
    else
      (front normalized).map (fun c => [c])

/-- The palette list of `c_colors` under the key "default". -/
def defaultColors : List QColor :=
  [0xe93a9a, 0xe93d58, 0xe9643a, 0xef973c, 0xe8cb2d, 0xb6e521,
   0x3dd425, 0x00d485, 0x00d3b8, 0x3daee9, 0xb875dc, 0x926ee4]

/-- The palette list of `c_colors` under the key "Material". -/
def materialColors : List QColor :=
  [0xf44336, 0xe91e63, 0x9c27b0, 0x673ab7, 0x3f51b5, 0x2196f3, 0x03a9f4, 0x00bcd4,
   0x009688, 0x4caf50, 0x8bc34a, 0xcddc39, 0xffeb3b, 0xffc107, 0xff9800, 0xff5722]

/-- The map `c_colors`: style name to palette. -/
def c_colors : QHash String (List QColor) :=
  [("default", defaultColors), ("Material", materialColors)]

/-- `grabColors`: the palette of the active style, else the default one. -/
def grabColors (tk : Toolkit) : List QColor :=
  if QHash.contains c_colors tk.styleName then
    (QHash.value c_colors tk.styleName).getD []
  else
    (QHash.value c_colors "default").getD []

/-- The index `colorsFromString` computes: `hash % (length - 1)` on `uint`,
the `int` length minus one converted to `uint`; `none` for a zero divisor. -/
def colorIndex (tk : Toolkit) (string : QString) : Option Nat :=
  let hash := tk.qHash string % 2 ^ 32
  let divisor := (((grabColors tk).length : Int) - 1) % 2 ^ 32
  if divisor = 0 then none else some (hash % divisor.toNat)

/-- `AvatarPrivate::colorsFromString`; `none` where the division or the list
access is undefined. -/
def colorsFromString (tk : Toolkit) (string : QString) : Option QColor :=
  match colorIndex tk string with
  | none => none
  | some index => (grabColors tk)[index]?

/-- The local list `scripts` of `stringUnsuitableForInitials`. -/
def scripts : List Script :=
  [Script.Common, Script.Inherited, Script.Latin, Script.Han, Script.Hangul]

/-- The loop of `stringUnsuitableForInitials`: stop at the first character
whose script is not in `scripts`. -/
def hasForeignScript (tk : Toolkit) : QString → Bool
  | [] => false
  | character :: rest =>
    if !(scripts.contains (tk.script character)) then true else hasForeignScript tk rest

/-- `AvatarPrivate::stringUnsuitableForInitials`. -/
def stringUnsuitableForInitials (tk : Toolkit) (string : QString) : Bool :=
  if string.isEmpty then true
  else if tk.toFloatOk string then true
  else hasForeignScript tk string

/-- Canonical decomposition of one code unit as the toolkit does it for the
Hangul syllable block (`U+AC00`..`U+D7A3`): leading consonant, vowel and,
if any, trailing consonant.  Other code units are returned as they are. -/
def decomposeHangul (c : QChar) : QString :=
  if 0xAC00 ≤ c ∧ c ≤ 0xD7A3 then
    let sIndex := c - 0xAC00
    let l := 0x1100 + sIndex / 588
    let v := 0x1161 + (sIndex % 588) / 28
    let t := sIndex % 28
    if t = 0 then [l, v] else [l, v, 0x11A7 + t]
  else [c]

/-- The script of a code unit on the blocks this development evaluates: ASCII,
combining marks `U+0300`..`U+0341`, basic Greek and Cyrillic letters, Hangul
jamo and syllables, and the first CJK unified ideographs; `Unknown` elsewhere. -/
def refScript (c : QChar) : Script :=
  if (0x41 ≤ c ∧ c ≤ 0x5A) ∨ (0x61 ≤ c ∧ c ≤ 0x7A) then Script.Latin
  else if c < 0x80 then Script.Common
  else if 0x0300 ≤ c ∧ c ≤ 0x0341 then Script.Inherited
  else if (0x0391 ≤ c ∧ c ≤ 0x03A1) ∨ (0x03B1 ≤ c ∧ c ≤ 0x03C9) then Script.Greek
  else if 0x0410 ≤ c ∧ c ≤ 0x044F then Script.Cyrillic
  else if (0x1100 ≤ c ∧ c ≤ 0x11FF) ∨ (0xAC00 ≤ c ∧ c ≤ 0xD7A3) then Script.Hangul
  else if 0x4E00 ≤ c ∧ c ≤ 0x9FA5 then Script.Han
  else Script.Unknown

/-- A toolkit to evaluate the helper on: it agrees with the real one on ASCII
text and on the Hangul and first CJK blocks.  Strings of decimal digits parse
as numbers, the hash is the multiply-by-31 string hash, the style is the
default one. -/
def refToolkit : Toolkit :=
  { normalized := fun s => s.flatMap decomposeHangul,
    script := refScript,
    toFloatOk := fun s => !s.isEmpty && s.all (fun c => decide (0x30 ≤ c ∧ c ≤ 0x39)),
    qHash := fun s => s.foldl (fun h c => (31 * h + c) % 2 ^ 32) 0,
    styleName := "org.kde.desktop" }

/-! ## Columns view (`src/src/columnsview.cpp`)

`qreal` is taken as exact rational arithmetic. -/

/-- The toolkit's `qreal`. -/
abbrev qreal := ℚ

/-- `qBound(min, val, max)`: `qMax(min, qMin(max, val))`. -/
def qBound {α : Type} [LinearOrder α] (lo val hi : α) : α :=
  max lo (min hi val)

/-- The values of `ColumnsView::ColumnResizeMode`. -/
inductive ColumnResizeMode where
  | FixedColumns
  | DynamicColumns
  | SingleColumn
  deriving DecidableEq, Repr

/-- What `parentItem()` of a child item can be. -/
inductive ParentRef where
  | null
  | contentItem
  | view
  | other
  deriving DecidableEq, Repr

/-- The toolkit state of a child item that the view reads or writes: its
geometry, its parent, and whether the scripting layer owns it. -/
structure QQuickItem where
  x : qreal
  y : qreal
  width : qreal
  height : qreal
  implicitWidth : qreal
  parentItem : ParentRef
  jsOwned : Bool

/-- What `m_firstVisibleItem` can point to: a child item, or the content item
itself. -/
inductive ItemRef where
  | contentItem
  | child (item : ItemId)
  deriving DecidableEq, Repr

/-- A `QRectF`. -/
structure QRectF where
  x : qreal
  y : qreal
  width : qreal
  height : qreal

/-- The slide animation `m_slideAnim`: its key values and whether it runs. -/
structure SlideAnim where
  startValue : qreal
  endValue : qreal
  running : Bool

/-- The members and geometry of `ContentItem`; `hasParent` is whether
`parentItem()`, the view, is set. -/
structure ContentItem where
  hasParent : Bool
  x : qreal
  y : qreal
  width : qreal
  height : qreal
  m_items : List ItemId
  m_firstVisibleItem : Option ItemRef
  m_columnResizeMode : ColumnResizeMode
  m_stretchableItem : Option ItemId
  m_columnWidth : qreal
  m_reservedColumns : Int
  m_slideAnim : SlideAnim

/-- The members and geometry of `ColumnsView`, the size of its `parentItem()`
if it has one, and the child items it can reach. -/
structure ColumnsView where
  hasParent : Bool
  parentWidth : qreal
  parentHeight : qreal
  x : qreal
  y : qreal
  width : qreal
  height : qreal
  m_currentIndex : Int
  m_currentItem : Option ItemId
  m_oldMouseX : qreal
  m_contentItem : ContentItem
  items : ItemId → QQuickItem
  focusItem : Option ItemId
  deleteLater : List ItemId

/-- The toolkit's scene functions: `mapRectToItem` from a child to the view's
parent, `QRectF::intersects`, and `childAt` of the content item. -/
structure Scene where
  mapRectToItem : ColumnsView → ItemId → QRectF → QRectF
  intersects : QRectF → QRectF → Bool
  childAt : ColumnsView → qreal → qreal → Option ItemId

/-- The state with the toolkit state of `item` replaced. -/
def ColumnsView.setItem (s : ColumnsView) (item : ItemId) (v : QQuickItem) : ColumnsView :=
  { s with items := fun i => if i = item then v else s.items i }

/-- `x()` of what `m_firstVisibleItem` points to. -/
def ColumnsView.refX (s : ColumnsView) : ItemRef → qreal
  | ItemRef.contentItem => s.m_contentItem.x
  | ItemRef.child item => (s.items item).x

/-- `QList::indexOf`: the first position of `item`, `-1` if absent. -/
def indexOf (l : List ItemId) (item : ItemId) : Int :=
  if item ∈ l then (l.indexOf item : Int) else -1

/-- `QList::removeAll`. -/
def removeAll (l : List ItemId) (item : ItemId) : List ItemId :=
  l.filter (fun i => decide (i ≠ item))

/-- `QList::move(from, to)` for positions in range: take the element out and
put it back at position `to`. -/
def qlistMove (l : List ItemId) (pFrom pTo : Nat) : List ItemId :=
  match l[pFrom]? with
  | none => l
  | some item => (l.eraseIdx pFrom).insertIdx pTo item

/-- `ContentItem::setBoundedX`. -/
def setBoundedX (s : ColumnsView) (x : qreal) : ColumnsView :=
  if !s.m_contentItem.hasParent then s
  else
    { s with m_contentItem :=
        { s.m_contentItem with
            m_slideAnim := { s.m_contentItem.m_slideAnim with running := false },
            x := qBound (min 0 (-s.m_contentItem.width + s.width)) x 0 } }

/-- `ContentItem::animateX`. -/
def animateX (s : ColumnsView) (newX : qreal) : ColumnsView :=
  if !s.m_contentItem.hasParent then s
  else
    let toX := qBound (min 0 (-s.m_contentItem.width + s.width)) newX 0
    { s with m_contentItem :=
        { s.m_contentItem with
            m_slideAnim := { startValue := s.m_contentItem.x, endValue := toX, running := true } } }

/-- `ContentItem::childWidth`. -/
def childWidth (s : ColumnsView) (child : ItemId) : qreal :=
  if !s.m_contentItem.hasParent then 0
  else
    match s.m_contentItem.m_columnResizeMode with
    | ColumnResizeMode.SingleColumn => s.width
    | ColumnResizeMode.FixedColumns =>
      if some child = s.m_contentItem.m_stretchableItem then
        qBound s.m_contentItem.m_columnWidth
          (s.width - s.m_contentItem.m_columnWidth * s.m_contentItem.m_reservedColumns) s.width
      else
        min s.width s.m_contentItem.m_columnWidth
    | ColumnResizeMode.DynamicColumns =>
      if (s.items child).implicitWidth > 0 then
        min s.width (s.items child).implicitWidth
      else
        min s.width (s.items child).width

/-- The loop of `ContentItem::layoutItems` over the remaining children, with
the running `partialWidth`. -/
def layoutLoop (s : ColumnsView) : List ItemId → qreal → ColumnsView × qreal
  | [], partialWidth => (s, partialWidth)
  | child :: rest, partialWidth =>
    let s1 := s.setItem child
      { s.items child with width := childWidth s child, height := s.m_contentItem.height }
    let s2 := s1.setItem child { s1.items child with x := partialWidth, y := 0 }
    layoutLoop s2 rest (partialWidth + (s2.items child).width)

/-- `ContentItem::layoutItems`. -/
def layoutItems (s : ColumnsView) : ColumnsView :=
  let r := layoutLoop s s.m_contentItem.m_items 0
  let s1 := { r.1 with m_contentItem := { r.1.m_contentItem with width := r.2 } }
  let s2 := setBoundedX s1
    (match s1.m_contentItem.m_firstVisibleItem with
     | some first => -(s1.refX first)
     | none => 0)
  { s2 with m_contentItem := { s2.m_contentItem with y := 0 } }

/-- `ColumnsView::setCurrentIndex`. -/
def setCurrentIndex (sc : Scene) (s : ColumnsView) (index : Int) : ColumnsView :=
  if !s.hasParent || s.m_currentIndex = index || index < -1
      || index ≥ s.m_contentItem.m_items.length then s
  else
    let s1 := { s with m_currentIndex := index }
    if index = -1 then { s1 with m_currentItem := none }
    else
      match s1.m_contentItem.m_items[index.toNat]? with
      | none => s1
      | some item =>
        let s2 := { s1 with m_currentItem := some item, focusItem := some item }
        let it := s2.items item
        let mapped := sc.mapRectToItem s2 item
          { x := it.x, y := it.y, width := it.width, height := it.height }
        if !sc.intersects { x := 0, y := 0, width := s2.parentWidth, height := s2.parentHeight }
            mapped then
          animateX
            { s2 with m_contentItem :=
                { s2.m_contentItem with m_firstVisibleItem := some ItemRef.contentItem } }
            (-s2.m_contentItem.x)
        else s2

/-- `ContentItem::itemChange` for `ItemChildRemovedChange`. -/
def itemChildRemoved (sc : Scene) (s : ColumnsView) (item : ItemId) : ColumnsView :=
  let index := indexOf s.m_contentItem.m_items item
  let s1 := { s with m_contentItem :=
    { s.m_contentItem with m_items := removeAll s.m_contentItem.m_items item } }
  let s2 := layoutItems s1
  if index < s2.m_currentIndex then
    setCurrentIndex sc s2 (qBound 0 (index - 1) ((s2.m_contentItem.m_items.length : Int) - 1))
  else s2

/-- `ContentItem::itemChange` for `ItemChildAddedChange`. -/
def itemChildAdded (s : ColumnsView) (item : ItemId) : ColumnsView :=
  let s1 :=
    if item ∈ s.m_contentItem.m_items then s
    else { s with m_contentItem :=
      { s.m_contentItem with m_items := s.m_contentItem.m_items ++ [item] } }
  layoutItems s1

/-- The toolkit's `item->setParentItem(nullptr)`: the old parent is told that
a child left, and the item has no parent afterwards. -/
def setParentItemNull (sc : Scene) (s : ColumnsView) (item : ItemId) : ColumnsView :=
  match (s.items item).parentItem with
  | ParentRef.null => s
  | ParentRef.contentItem =>
    let s1 := itemChildRemoved sc s item
    s1.setItem item { s1.items item with parentItem := ParentRef.null }
  | _ => s.setItem item { s.items item with parentItem := ParentRef.null }

/-- `ColumnsView::moveItem`. -/
def moveItem (s : ColumnsView) (pFrom pTo : Int) : ColumnsView :=
  if s.m_contentItem.m_items.isEmpty
      || pFrom < 0 || pFrom ≥ s.m_contentItem.m_items.length
      || pTo < 0 || pTo ≥ s.m_contentItem.m_items.length then s
  else
    layoutItems { s with m_contentItem :=
      { s.m_contentItem with
          m_items := qlistMove s.m_contentItem.m_items pFrom.toNat pTo.toNat } }

/-- `ColumnsView::removeItem(QQuickItem *)`. -/
def removeItem (sc : Scene) (s : ColumnsView) (item : ItemId) : ColumnsView :=
  if s.m_contentItem.m_items.isEmpty || !(s.m_contentItem.m_items.contains item) then s
  else
    let s1 := { s with m_contentItem :=
      { s.m_contentItem with m_items := removeAll s.m_contentItem.m_items item } }
    if (s1.items item).jsOwned then
      { s1 with deleteLater := item :: s1.deleteLater }
    else
      setParentItemNull sc s1 item

/-- `ColumnsView::removeItem(int)`. -/
def removeItemAt (sc : Scene) (s : ColumnsView) (pos : Int) : ColumnsView :=
  if s.m_contentItem.m_items.isEmpty
      || pos < 0 || pos ≥ s.m_contentItem.m_items.length then s
  else
    match s.m_contentItem.m_items[pos.toNat]? with
    | none => s
    | some item => removeItem sc s item

/-- `ColumnsView::contentChildren_at`; `view` is `prop->object`. -/
def contentChildren_at (view : Option ColumnsView) (index : Int) : Option ItemId :=
  match view with
  | none => none
  | some v =>
    if index < 0 || index ≥ v.m_contentItem.m_items.length then none
    else v.m_contentItem.m_items[index.toNat]?

/-- `ColumnsView::mouseReleaseEvent`. -/
def mouseReleaseEvent (sc : Scene) (s : ColumnsView) : ColumnsView :=
  match sc.childAt s (-s.m_contentItem.x) 0 with
  | none => s
  | some firstItem =>
    let first := s.items firstItem
    let toFirst := animateX
      { s with m_contentItem :=
          { s.m_contentItem with m_firstVisibleItem := some (ItemRef.child firstItem) } }
      (-first.x)
    match sc.childAt s (first.x + first.width + 1) 0 with
    | none => toFirst
    | some nextItem =>
      let toNext := animateX
        { s with m_contentItem :=
            { s.m_contentItem with m_firstVisibleItem := some (ItemRef.child nextItem) } }
        (-(s.items nextItem).x)
      if s.m_contentItem.width - (-s.m_contentItem.x + s.width)
          < -s.m_contentItem.x - first.x then toNext
      else if -s.m_contentItem.x ≤ first.x + first.width / 2 then toFirst
      else toNext

/-- `QRectF::intersects` on the ranges of one axis: `false` for an empty
range, else whether the two ranges overlap. -/
def rangesIntersect (p1 w1 p2 w2 : qreal) : Bool :=
  let l1 := if w1 < 0 then p1 + w1 else p1
  let r1 := if w1 < 0 then p1 else p1 + w1
  let l2 := if w2 < 0 then p2 + w2 else p2
  let r2 := if w2 < 0 then p2 else p2 + w2
  if l1 = r1 then false
  else if l2 = r2 then false
  else if l1 ≥ r2 || l2 ≥ r1 then false
  else true

/-- A scene to evaluate the view on: nothing is rotated or scaled, and the
children of the content item are the listed items.  `childAt` answers the last
listed child whose rectangle holds the point. -/
def refScene : Scene :=
  { mapRectToItem := fun s item r =>
      { x := r.x + (s.items item).x + s.m_contentItem.x + s.x,
        y := r.y + (s.items item).y + s.m_contentItem.y + s.y,
        width := r.width, height := r.height },
    intersects := fun a b =>
      rangesIntersect a.x a.width b.x b.width && rangesIntersect a.y a.height b.y b.height,
    childAt := fun s px py =>
      s.m_contentItem.m_items.reverse.find? (fun i =>
        decide (px - (s.items i).x ≥ 0 ∧ (s.items i).width > px - (s.items i).x
          ∧ py - (s.items i).y ≥ 0 ∧ (s.items i).height > py - (s.items i).y)) }

/-- A view 150 wide in a parent of the same size, holding the listed columns,
each 100 wide and 50 high, laid out side by side, scrolled to `contentX`. -/
def sampleView (columns : List ItemId) (contentX : qreal) : ColumnsView :=
  { hasParent := true, parentWidth := 150, parentHeight := 50,
    x := 0, y := 0, width := 150, height := 50,
    m_currentIndex := -1, m_currentItem := none, m_oldMouseX := 0,
    m_contentItem :=
      { hasParent := true, x := contentX, y := 0,
        width := 100 * (columns.length : ℚ), height := 50,
        m_items := columns, m_firstVisibleItem := none,
        m_columnResizeMode := ColumnResizeMode.DynamicColumns,
        m_stretchableItem := none, m_columnWidth := 0, m_reservedColumns := 0,
        m_slideAnim := { startValue := 0, endValue := 0, running := false } },
    items := fun i =>
      { x := 100 * (i : ℚ), y := 0, width := 100, height := 50, implicitWidth := 0,
        parentItem := ParentRef.contentItem, jsOwned := false },
    focusItem := none, deleteLater := [] }

/-- The toolkit's `item->setParentItem(m_contentItem)`: nothing for an item
that is a child of the content item already; else the item gets its new parent
and the content item is told that a child was added. -/
def setParentItemContent (s : ColumnsView) (item : ItemId) : ColumnsView :=
  match (s.items item).parentItem with
  | ParentRef.contentItem => s
  | _ =>
    itemChildAdded
      (s.setItem item { s.items item with parentItem := ParentRef.contentItem }) item

/-- `ColumnsView::insertItem`. -/
def insertItem (sc : Scene) (s : ColumnsView) (pos : Int) (item : ItemId) : ColumnsView :=
  if s.m_contentItem.m_items.contains item then s
  else
    let s1 := { s with m_contentItem :=
      { s.m_contentItem with
          m_items := s.m_contentItem.m_items.insertIdx
            (qBound 0 pos (s.m_contentItem.m_items.length : Int)).toNat item,
          m_firstVisibleItem := some (ItemRef.child item) } }
    let s2 := setCurrentIndex sc s1 pos
    let s3 := setParentItemContent s2 item
    { s3 with focusItem := some item }

/-- `ColumnsView::addItem`. -/
def addItem (sc : Scene) (s : ColumnsView) (item : ItemId) : ColumnsView :=
  insertItem sc s (s.m_contentItem.m_items.length : Int) item

/-- An empty view 150 wide in a parent of the same size, current index -1;
the items it can be given are 100 wide, 50 high and have no parent yet. -/
def emptyView : ColumnsView :=
  { sampleView [] 0 with
    items := fun _ =>
      { x := 0, y := 0, width := 100, height := 50, implicitWidth := 0,
        parentItem := ParentRef.null, jsOwned := false } }

/-- A view 100 wide in fixed-columns mode with column width 150 and one
reserved column; its one column, item 0, is the stretchable item. -/
def narrowView : ColumnsView :=
  { sampleView [0] 0 with
    width := 100,
    m_contentItem :=
      { (sampleView [0] 0).m_contentItem with
          m_columnResizeMode := ColumnResizeMode.FixedColumns,
          m_stretchableItem := some 0,
          m_columnWidth := 150,
          m_reservedColumns := 1 } }

/-! # Theorems -/

/-! ## Page pool -/

/-- C1 (the code departs from the claim): on a fresh pool with caching on and
an engine on which every load succeeds, the loads of "A", "B", "A", "A" return
the items 0, 1, 0, 1: the fourth call, for "A", returns the item that the load
of "B" instantiated. -/
theorem C1_fourth_load_returns_item_of_other_url :
    loadPages readyEngine (PagePool.fresh true) ["A", "B", "A", "A"]
      = [some 0, some 1, some 0, some 1] := by
  decide

/-- C8: when `loadPage` finds no item for the resolved URL and the component is
in an error state (neither Ready nor Loading), or is Loading while the callback
is not callable, it returns null and leaves the last loaded URL, the last
loaded item and the URL-to-item cache as they were. -/
theorem C8_failed_load_returns_null_and_caches_nothing
    (env : Engine) (p : PagePool) (url : String) (callable : Bool)
    (hfound : foundItem p (resolvedUrl env url) = none)
    (hfail :
      ((componentFor env p (resolvedUrl env url)).status ≠ Status.Ready
        ∧ (componentFor env p (resolvedUrl env url)).status ≠ Status.Loading)
      ∨ ((componentFor env p (resolvedUrl env url)).status = Status.Loading
        ∧ callable = false)) :
    (loadPage env p url callable).2 = none
      ∧ (loadPage env p url callable).1.m_lastLoadedUrl = p.m_lastLoadedUrl
      ∧ (loadPage env p url callable).1.m_lastLoadedItem = p.m_lastLoadedItem
      ∧ (loadPage env p url callable).1.m_itemForUrl = p.m_itemForUrl := by
  unfold loadPage
  simp only [hfound]
  rcases hfail with ⟨hr, hl⟩ | ⟨hl, hc⟩
  · simp [hr, hl]
  · simp [hl, hc]

/-- C8 at a concrete input: a fresh pool, an engine whose components are in
the error state, the URL "A", no callback. -/
theorem C8_failed_load_witness :
    (loadPage brokenEngine (PagePool.fresh true) "A" false).2 = none
      ∧ (loadPage brokenEngine (PagePool.fresh true) "A" false).1.m_lastLoadedUrl
          = (PagePool.fresh true).m_lastLoadedUrl
      ∧ (loadPage brokenEngine (PagePool.fresh true) "A" false).1.m_lastLoadedItem
          = (PagePool.fresh true).m_lastLoadedItem
      ∧ (loadPage brokenEngine (PagePool.fresh true) "A" false).1.m_itemForUrl
          = (PagePool.fresh true).m_itemForUrl :=
  C8_failed_load_returns_null_and_caches_nothing brokenEngine (PagePool.fresh true) "A" false
    (by decide) (Or.inl ⟨by decide, by decide⟩)

/-- C11 (the code departs from the claim): on a fresh pool with caching on,
`loadPage("A")` succeeds and returns item 0 for the resolved URL "A"; then
`urlForPage` of item 0 is the empty URL, `contains` of item 0 is false, and
after `deletePage("A")`, as after `deletePage` of item 0, `contains("A")` is
still true. -/
theorem C11_item_to_url_map_never_filled :
    (loadPage readyEngine (PagePool.fresh true) "A" false).2 = some 0
      ∧ resolvedUrl readyEngine "A" = "A"
      ∧ urlForPage (loadPage readyEngine (PagePool.fresh true) "A" false).1 0 = ""
      ∧ (loadPage readyEngine (PagePool.fresh true) "A" false).1.contains readyEngine
          (QVariant.item 0) = false
      ∧ (loadPage readyEngine (PagePool.fresh true) "A" false).1.contains readyEngine
          (QVariant.string "A") = true
      ∧ (deletePage readyEngine (loadPage readyEngine (PagePool.fresh true) "A" false).1
          (QVariant.string "A")).contains readyEngine (QVariant.string "A") = true
      ∧ (deletePage readyEngine (loadPage readyEngine (PagePool.fresh true) "A" false).1
          (QVariant.item 0)).contains readyEngine (QVariant.string "A") = true := by
  decide

/-! ## Avatar helper -/

/-- `splitRef` always yields at least one token. -/
theorem splitRef_ne_nil (sep : QChar) (s : QString) : splitRef sep s ≠ [] := by
  induction s with
  | nil => simp [splitRef]
  | cons c rest ih =>
    unfold splitRef
    by_cases h : c = sep
    · simp [h]
    · simp only [h, if_false]
      cases hsplit : splitRef sep rest with
      | nil => simp
      | cons tok toks => simp

/-- No token of `splitRef` holds the separator. -/
theorem splitRef_no_sep (sep : QChar) (s : QString) :
    ∀ tok ∈ splitRef sep s, sep ∉ tok := by
  induction s with
  | nil => simp [splitRef]
  | cons c rest ih =>
    unfold splitRef
    by_cases h : c = sep
    · simp only [h, if_true]
      intro tok htok
      rcases List.mem_cons.mp htok with rfl | h'
      · simp
      · exact ih tok h'
    · simp only [h, if_false]
      cases hsplit : splitRef sep rest with
      | nil =>
        intro tok htok
        simp at htok
        subst htok
        simp [Ne.symm h]
      | cons tok0 toks =>
        rw [hsplit] at ih
        intro tok htok
        rcases List.mem_cons.mp htok with rfl | h'
        · have := ih tok0 (List.mem_cons_self _ _)
          simp [Ne.symm h, this]
        · exact ih tok (List.mem_cons_of_mem _ h')

/-- Joining the tokens of `splitRef` with the separator gives the string
back. -/
theorem splitRef_intercalate (sep : QChar) (s : QString) :
    List.intercalate [sep] (splitRef sep s) = s := by
  induction s with
  | nil => simp [splitRef, List.intercalate]
  | cons c rest ih =>
    unfold splitRef
    by_cases h : c = sep
    · simp only [h, if_true]
      cases hsplit : splitRef sep rest with
      | nil => exact absurd hsplit (splitRef_ne_nil sep rest)
      | cons tok0 toks =>
        rw [hsplit] at ih
        simp only [List.intercalate, List.intersperse] at ih ⊢
        simp [ih]
    · simp only [h, if_false]
      cases hsplit : splitRef sep rest with
      | nil => exact absurd hsplit (splitRef_ne_nil sep rest)
      | cons tok0 toks =>
        rw [hsplit] at ih
        cases toks with
        | nil =>
          simp only [List.intercalate, List.intersperse] at ih ⊢
          simp at ih ⊢
          exact ih
        | cons t1 ts =>
          simp only [List.intercalate, List.intersperse] at ih ⊢
          simp at ih ⊢
          exact ih

/-- The loop of `stringUnsuitableForInitials` answers `true` exactly when some
character has a script outside the list `scripts`. -/
theorem hasForeignScript_iff (tk : Toolkit) (s : QString) :
    hasForeignScript tk s = true ↔ ∃ c ∈ s, tk.script c ∉ scripts := by
  induction s with
  | nil => simp [hasForeignScript]
  | cons c rest ih =>
    unfold hasForeignScript
    by_cases h : tk.script c ∈ scripts
    · simp [h, ih]
    · simp [h]

/-- The active palette is one of the two lists of `c_colors`. -/
theorem grabColors_cases (tk : Toolkit) :
    grabColors tk = defaultColors ∨ grabColors tk = materialColors := by
  unfold grabColors
  by_cases h1 : tk.styleName = "default"
  · left
    simp [h1, QHash.contains, QHash.value, c_colors]
  · by_cases h2 : tk.styleName = "Material"
    · right
      simp [h2, QHash.contains, QHash.value, c_colors]
    · left
      have h1' : ¬ ("default" = tk.styleName) := fun h => h1 h.symm
      have h2' : ¬ ("Material" = tk.styleName) := fun h => h2 h.symm
      simp [h1', h2', QHash.contains, QHash.value, c_colors, List.find?]

/-- C2 (the code departs from the claim): on the string of one space, and on
" A " with a leading and a trailing space, both end tokens are empty and
`initialsFromString` reads the first character of the empty last token, so the
call has no defined result. -/
theorem C2_initials_undefined_on_spaces :
    initialsFromString refToolkit [0x20] = none
      ∧ initialsFromString refToolkit [0x20, 0x41, 0x20] = none
      ∧ (splitRef space (refToolkit.normalized [0x20, 0x41, 0x20])).getLast? = some [] := by
  decide

/-- A string without the separator is its own single token. -/
theorem splitRef_of_no_sep (sep : QChar) (s : QString) (h : sep ∉ s) :
    splitRef sep s = [s] := by
  induction s with
  | nil => simp [splitRef]
  | cons c rest ih =>
    have hc : c ≠ sep := fun e => h (by simp [e])
    have hrest : sep ∉ rest := fun e => h (List.mem_cons_of_mem _ e)
    unfold splitRef
    simp only [hc, if_false, ih hrest]

/-- The first token of `splitRef` is the part of the string before its first
separator. -/
theorem splitRef_head (sep : QChar) (first rest : QString) (h : sep ∉ first) :
    (splitRef sep (first ++ sep :: rest)).head? = some first := by
  induction first with
  | nil => simp [splitRef]
  | cons c first' ih =>
    have hc : c ≠ sep := fun e => h (by simp [e])
    have hfirst' : sep ∉ first' := fun e => h (List.mem_cons_of_mem _ e)
    have ih' := ih hfirst'
    simp only [List.cons_append]
    unfold splitRef
    simp only [hc, if_false]
    cases hsplit : splitRef sep (first' ++ sep :: rest) with
    | nil => exact absurd hsplit (splitRef_ne_nil sep _)
    | cons tok toks =>
      rw [hsplit] at ih'
      simp only [List.head?_cons, Option.some.injEq] at ih'
      simp [ih']

/-- The tokens of a string that holds a separator are at least two, and the
last one is the part of the string after its last separator. -/
theorem splitRef_init_last (sep : QChar) (pre last : QString) (h : sep ∉ last) :
    ∃ tok toks, splitRef sep (pre ++ sep :: last) = (tok :: toks) ++ [last] := by
  induction pre with
  | nil =>
    refine ⟨[], [], ?_⟩
    simp only [List.nil_append]
    unfold splitRef
    simp [splitRef_of_no_sep sep last h]
  | cons c pre' ih =>
    obtain ⟨tok, toks, hsplit⟩ := ih
    simp only [List.cons_append] at hsplit ⊢
    unfold splitRef
    by_cases hc : c = sep
    · refine ⟨[], tok :: toks, ?_⟩
      simp [hc, hsplit]
    · refine ⟨c :: tok, toks, ?_⟩
      simp [hc, hsplit]

/-- C3: for a non-empty string whose normalized form has no Han or Hangul
character and holds a space, let `first` be the part of the normalized form
before its first space and `last` the part after its last space.  These are
the first and last tokens the code splits off; if both are non-empty the
result is the two characters first-of-`first`, first-of-`last`; if only
`first` is empty it is the first character of `last`; if only `last` is empty
it is the first character of `first`. -/
theorem C3_initials_of_first_and_last_token (tk : Toolkit)
    (s first afterFirst beforeLast last : QString)
    (hs : s ≠ [])
    (hHan : contains tk (tk.normalized s) Script.Han = false)
    (hHangul : contains tk (tk.normalized s) Script.Hangul = false)
    (hfirst : tk.normalized s = first ++ space :: afterFirst) (hfirstTok : space ∉ first)
    (hlast : tk.normalized s = beforeLast ++ space :: last) (hlastTok : space ∉ last) :
    (splitRef space (tk.normalized s)).head? = some first
      ∧ (splitRef space (tk.normalized s)).getLast? = some last
      ∧ (∀ f ft l lt, first = f :: ft → last = l :: lt →
          initialsFromString tk s = some [f, l])
      ∧ (∀ l lt, first = [] → last = l :: lt → initialsFromString tk s = some [l])
      ∧ (∀ f ft, first = f :: ft → last = [] → initialsFromString tk s = some [f]) := by
  have hhead : (splitRef space (tk.normalized s)).head? = some first := by
    rw [hfirst]
    exact splitRef_head space first afterFirst hfirstTok
  have hgetLast : (splitRef space (tk.normalized s)).getLast? = some last := by
    obtain ⟨tok, toks, hsplit⟩ := splitRef_init_last space beforeLast last hlastTok
    rw [hlast, hsplit]
    exact List.getLast?_append_of_ne_nil _ (by simp) |>.trans (by simp)
  have hsp : space ∈ tk.normalized s := by
    rw [hfirst]
    simp
  have hs' : s.isEmpty = false := by
    cases s with
    | nil => exact absurd rfl hs
    | cons a l => rfl
  refine ⟨hhead, hgetLast, ?_, ?_, ?_⟩
  · intro f ft l lt h1 h2
    subst h1
    subst h2
    simp [initialsFromString, hs', hHan, hHangul, hsp, hhead, hgetLast, front]
  · intro l lt h1 h2
    subst h1
    subst h2
    simp [initialsFromString, hs', hHan, hHangul, hsp, hhead, hgetLast, front]
  · intro f ft h1 h2
    subst h1
    subst h2
    simp [initialsFromString, hs', hHan, hHangul, hsp, hhead, hgetLast, front]

/-- C3 at concrete inputs: "Jo Sm" gives "JS", " Sm" gives "S" and "Jo " gives
"J". -/
theorem C3_initials_witness :
    initialsFromString refToolkit [0x4A, 0x6F, 0x20, 0x53, 0x6D] = some [0x4A, 0x53]
      ∧ initialsFromString refToolkit [0x20, 0x53, 0x6D] = some [0x53]
      ∧ initialsFromString refToolkit [0x4A, 0x6F, 0x20] = some [0x4A] :=
  ⟨(C3_initials_of_first_and_last_token refToolkit [0x4A, 0x6F, 0x20, 0x53, 0x6D]
      [0x4A, 0x6F] [0x53, 0x6D] [0x4A, 0x6F] [0x53, 0x6D]
      (by decide) (by decide) (by decide) (by decide) (by decide) (by decide)
      (by decide)).2.2.1 0x4A [0x6F] 0x53 [0x6D] rfl rfl,
   (C3_initials_of_first_and_last_token refToolkit [0x20, 0x53, 0x6D]
      [] [0x53, 0x6D] [] [0x53, 0x6D]
      (by decide) (by decide) (by decide) (by decide) (by decide) (by decide)
      (by decide)).2.2.2.1 0x53 [0x6D] rfl rfl,
   (C3_initials_of_first_and_last_token refToolkit [0x4A, 0x6F, 0x20]
      [0x4A, 0x6F] [] [0x4A, 0x6F] []
      (by decide) (by decide) (by decide) (by decide) (by decide) (by decide)
      (by decide)).2.2.2.2 0x4A [0x6F] rfl rfl⟩

/-- C4 (the code departs from the claim): the empty string maps to the empty
string and the single ideograph `U+4E2D` to itself, but the single Hangul
syllable `U+D55C`, of script Hangul, is decomposed by the normalization into
the jamo `U+1112 U+1161 U+11AB`, and the result is the first of them,
`U+1112`, not the input code point. -/
theorem C4_hangul_syllable_returns_leading_jamo :
    initialsFromString refToolkit [] = some []
      ∧ initialsFromString refToolkit [0x4E2D] = some [0x4E2D]
      ∧ refToolkit.script 0xD55C = Script.Hangul
      ∧ refToolkit.normalized [0xD55C] = [0x1112, 0x1161, 0x11AB]
      ∧ initialsFromString refToolkit [0xD55C] = some [0x1112]
      ∧ initialsFromString refToolkit [0xD55C] ≠ some [0xD55C] := by
  decide

/-- Where the normalization leaves a single Han or Hangul character alone, the
result is that character. -/
theorem initials_of_stable_han_or_hangul (tk : Toolkit) (c : QChar)
    (hscript : tk.script c = Script.Han ∨ tk.script c = Script.Hangul)
    (hnorm : tk.normalized [c] = [c]) :
    initialsFromString tk [c] = some [c] := by
  rcases hscript with h | h
  · simp [initialsFromString, hnorm, contains, h, front]
  · simp [initialsFromString, hnorm, contains, h, front]

/-- C5: `stringUnsuitableForInitials` answers `true` exactly when the string is
empty, or parses as a floating-point number, or holds a character whose script
is none of Common, Inherited, Latin, Han, Hangul; so a string that parses as a
number is flagged, and every other string gets `false`. -/
theorem C5_unsuitable_iff (tk : Toolkit) (s : QString) :
    (stringUnsuitableForInitials tk s = true ↔
      (s = [] ∨ tk.toFloatOk s = true
        ∨ ∃ c ∈ s, tk.script c ≠ Script.Common ∧ tk.script c ≠ Script.Inherited
            ∧ tk.script c ≠ Script.Latin ∧ tk.script c ≠ Script.Han
            ∧ tk.script c ≠ Script.Hangul))
      ∧ (tk.toFloatOk s = true → stringUnsuitableForInitials tk s = true)
      ∧ (¬ (s = [] ∨ tk.toFloatOk s = true
            ∨ ∃ c ∈ s, tk.script c ≠ Script.Common ∧ tk.script c ≠ Script.Inherited
                ∧ tk.script c ≠ Script.Latin ∧ tk.script c ≠ Script.Han
                ∧ tk.script c ≠ Script.Hangul)
          → stringUnsuitableForInitials tk s = false) := by
  have key : stringUnsuitableForInitials tk s = true ↔
      (s = [] ∨ tk.toFloatOk s = true
        ∨ ∃ c ∈ s, tk.script c ≠ Script.Common ∧ tk.script c ≠ Script.Inherited
            ∧ tk.script c ≠ Script.Latin ∧ tk.script c ≠ Script.Han
            ∧ tk.script c ≠ Script.Hangul) := by
    unfold stringUnsuitableForInitials
    cases s with
    | nil => simp
    | cons a l =>
      by_cases hf : tk.toFloatOk (a :: l) = true
      · simp [hf]
      · simp only [List.isEmpty_cons, Bool.false_eq_true, if_false, hf, false_or,
          hasForeignScript_iff, scripts, List.mem_cons, List.mem_singleton, not_or,
          List.mem_nil_iff, or_false, reduceCtorEq]
  refine ⟨key, fun h => key.mpr (Or.inr (Or.inl h)), fun h => ?_⟩
  cases hv : stringUnsuitableForInitials tk s with
  | false => rfl
  | true => exact absurd (key.mp hv) h

/-- C6: the colour returned is the entry of the active palette at index
`hash mod (paletteSize - 1)`, the hash taken as an unsigned 32-bit number; the
palette is the 12-colour default list or the 16-colour Material list, and the
index is a valid position of it. -/
theorem C6_color_is_palette_entry_at_hash_mod (tk : Toolkit) (s : QString) :
    ((grabColors tk = defaultColors ∧ (grabColors tk).length = 12)
        ∨ (grabColors tk = materialColors ∧ (grabColors tk).length = 16))
      ∧ ∃ index color,
          index = (tk.qHash s % 2 ^ 32) % ((grabColors tk).length - 1)
          ∧ index < (grabColors tk).length
          ∧ (grabColors tk)[index]? = some color
          ∧ colorsFromString tk s = some color := by
  rcases grabColors_cases tk with h | h
  · refine ⟨Or.inl ⟨h, by rw [h]; rfl⟩, ?_⟩
    have hlt : (tk.qHash s % 2 ^ 32) % 11 < 12 :=
      lt_trans (Nat.mod_lt _ (by norm_num)) (by norm_num)
    have hlen : (defaultColors).length = 12 := rfl
    refine ⟨(tk.qHash s % 2 ^ 32) % 11, defaultColors.get ⟨_, by rw [hlen]; exact hlt⟩,
      by rw [h]; rfl, by rw [h, hlen]; exact hlt, ?_, ?_⟩
    · rw [h]; exact List.getElem?_eq_getElem _
    · simp only [colorsFromString, colorIndex, h, hlen]
      norm_num
      rw [show Int.toNat 11 = 11 from rfl]
      exact List.getElem?_eq_getElem _
  · refine ⟨Or.inr ⟨h, by rw [h]; rfl⟩, ?_⟩
    have hlt : (tk.qHash s % 2 ^ 32) % 15 < 16 :=
      lt_trans (Nat.mod_lt _ (by norm_num)) (by norm_num)
    have hlen : (materialColors).length = 16 := rfl
    refine ⟨(tk.qHash s % 2 ^ 32) % 15, materialColors.get ⟨_, by rw [hlen]; exact hlt⟩,
      by rw [h]; rfl, by rw [h, hlen]; exact hlt, ?_, ?_⟩
    · rw [h]; exact List.getElem?_eq_getElem _
    · simp only [colorsFromString, colorIndex, h, hlen]
      norm_num
      rw [show Int.toNat 15 = 15 from rfl]
      exact List.getElem?_eq_getElem _

/-- C14: the index `colorsFromString` chooses is at most `paletteSize - 2`; the
colour returned is one of the first 11 entries of the 12-colour default
palette, or of the first 15 entries of the 16-colour Material palette, and is
not the last entry. -/
theorem C14_last_palette_entry_never_chosen (tk : Toolkit) (s : QString) :
    ((grabColors tk).length = 12 ∨ (grabColors tk).length = 16)
      ∧ ∃ index color,
          colorIndex tk s = some index
          ∧ index ≤ (grabColors tk).length - 2
          ∧ colorsFromString tk s = some color
          ∧ color ∈ (grabColors tk).take ((grabColors tk).length - 1)
          ∧ (grabColors tk).getLast? ≠ some color := by
  rcases grabColors_cases tk with h | h
  · have hlen : (defaultColors).length = 12 := rfl
    have key : ∀ i < 11, defaultColors[i]? = some (defaultColors.getD i 0)
        ∧ defaultColors.getD i 0 ∈ defaultColors.take 11
        ∧ defaultColors.getLast? ≠ some (defaultColors.getD i 0) := by
      decide
    have hlt : (tk.qHash s % 2 ^ 32) % 11 < 11 := Nat.mod_lt _ (by norm_num)
    obtain ⟨k1, k2, k3⟩ := key _ hlt
    have hidx : colorIndex tk s = some ((tk.qHash s % 2 ^ 32) % 11) := by
      simp only [colorIndex, h, hlen]
      norm_num
      rfl
    refine ⟨Or.inl (by rw [h, hlen]), (tk.qHash s % 2 ^ 32) % 11,
      defaultColors.getD ((tk.qHash s % 2 ^ 32) % 11) 0, hidx, ?_, ?_, ?_, ?_⟩
    · rw [h, hlen]; omega
    · simp only [colorsFromString, hidx, h]
      exact k1
    · rw [h, hlen]; exact k2
    · rw [h]; exact k3
  · have hlen : (materialColors).length = 16 := rfl
    have key : ∀ i < 15, materialColors[i]? = some (materialColors.getD i 0)
        ∧ materialColors.getD i 0 ∈ materialColors.take 15
        ∧ materialColors.getLast? ≠ some (materialColors.getD i 0) := by
      decide
    have hlt : (tk.qHash s % 2 ^ 32) % 15 < 15 := Nat.mod_lt _ (by norm_num)
    obtain ⟨k1, k2, k3⟩ := key _ hlt
    have hidx : colorIndex tk s = some ((tk.qHash s % 2 ^ 32) % 15) := by
      simp only [colorIndex, h, hlen]
      norm_num
      rfl
    refine ⟨Or.inr (by rw [h, hlen]), (tk.qHash s % 2 ^ 32) % 15,
      materialColors.getD ((tk.qHash s % 2 ^ 32) % 15) 0, hidx, ?_, ?_, ?_, ?_⟩
    · rw [h, hlen]; omega
    · simp only [colorsFromString, hidx, h]
      exact k1
    · rw [h, hlen]; exact k2
    · rw [h]; exact k3

/-! ## Columns view -/

/-- `setBoundedX` writes only the content item's position and animation. -/
theorem setBoundedX_frame (s : ColumnsView) (x : qreal) :
    (setBoundedX s x).items = s.items
      ∧ (setBoundedX s x).m_contentItem.m_items = s.m_contentItem.m_items
      ∧ (setBoundedX s x).m_contentItem.width = s.m_contentItem.width
      ∧ (setBoundedX s x).m_contentItem.height = s.m_contentItem.height := by
  unfold setBoundedX
  by_cases h : s.m_contentItem.hasParent = true
  · simp [h]
  · simp [h]

/-- The layout loop leaves the content item alone, and the children it does
not visit. -/
theorem layoutLoop_frame (l : List ItemId) :
    ∀ (s : ColumnsView) (p : qreal),
      (layoutLoop s l p).1.m_contentItem = s.m_contentItem
        ∧ ∀ i, i ∉ l → (layoutLoop s l p).1.items i = s.items i := by
  induction l with
  | nil => intro s p; simp [layoutLoop]
  | cons child rest ih =>
    intro s p
    simp only [layoutLoop]
    refine ⟨?_, ?_⟩
    · rw [(ih _ _).1]
      rfl
    · intro i hi
      have hic : i ≠ child := fun h => hi (by simp [h])
      have hir : i ∉ rest := fun h => hi (by simp [h])
      rw [(ih _ _).2 i hir]
      simp [ColumnsView.setItem, hic]

/-- The layout loop over a list without repeated items, started at
`partialWidth = p`: the result is `p` plus the widths of the visited children,
and the child at position `k` sits at `p` plus the widths of the children
before it, at `y = 0`, with the content height. -/
theorem layoutLoop_spec (l : List ItemId) :
    ∀ (s : ColumnsView) (p : qreal), l.Nodup →
      (layoutLoop s l p).2 = p + (l.map (fun i => ((layoutLoop s l p).1.items i).width)).sum
        ∧ ∀ (k : Nat) (hk : k < l.length),
            ((layoutLoop s l p).1.items l[k]).x
                = p + ((l.take k).map (fun i => ((layoutLoop s l p).1.items i).width)).sum
              ∧ ((layoutLoop s l p).1.items l[k]).y = 0
              ∧ ((layoutLoop s l p).1.items l[k]).height = s.m_contentItem.height := by
  induction l with
  | nil => intro s p _; simp [layoutLoop]
  | cons child rest ih =>
    intro s p hnd
    have hchild : child ∉ rest := (List.nodup_cons.mp hnd).1
    have hrest : rest.Nodup := (List.nodup_cons.mp hnd).2
    simp only [layoutLoop]
    generalize hs2 :
      ((s.setItem child
          { s.items child with width := childWidth s child,
                               height := s.m_contentItem.height }).setItem child
        { (s.setItem child
            { s.items child with width := childWidth s child,
                                 height := s.m_contentItem.height }).items child with
          x := p, y := 0 }) = s2
    have hitem : s2.items child
        = { s.items child with width := childWidth s child,
                               height := s.m_contentItem.height, x := p, y := 0 } := by
      rw [← hs2]; simp [ColumnsView.setItem]
    have hcontent : s2.m_contentItem = s.m_contentItem := by
      rw [← hs2]; rfl
    obtain ⟨ihw, ihk⟩ := ih s2 (p + (s2.items child).width) hrest
    have hfr := (layoutLoop_frame rest s2 (p + (s2.items child).width)).2 child hchild
    refine ⟨?_, ?_⟩
    · rw [ihw, List.map_cons, List.sum_cons, hfr]
      ring
    · intro k hk
      cases k with
      | zero =>
        simp only [List.getElem_cons_zero, List.take_zero, List.map_nil, List.sum_nil,
          add_zero]
        rw [hfr, hitem]
        exact ⟨rfl, rfl, rfl⟩
      | succ k =>
        have hk' : k < rest.length := by simpa using hk
        obtain ⟨hx, hy, hh⟩ := ihk k hk'
        simp only [List.getElem_cons_succ, List.take_succ_cons, List.map_cons, List.sum_cons]
        refine ⟨?_, hy, ?_⟩
        · rw [hx, hfr]
          ring
        · rw [hh, hcontent]

/-- C7: calls with an out-of-range index or a missing item change nothing:
`setCurrentIndex(i)` with `i < -1` or `i >= count`, `moveItem(from, to)` with
`from` or `to` outside `[0, count)`, `removeItem(pos)` with `pos` outside
`[0, count)` and `removeItem(item)` with an item that is not listed return the
state they were given, so the item list, the current index and the current
item are as before; `contentChildren_at` with an out-of-range index returns
null. -/
theorem C7_out_of_range_calls_are_noops (sc : Scene) (s : ColumnsView) :
    (∀ i : Int, (i < -1 ∨ i ≥ s.m_contentItem.m_items.length) → setCurrentIndex sc s i = s)
      ∧ (∀ pFrom pTo : Int,
          (pFrom < 0 ∨ pFrom ≥ s.m_contentItem.m_items.length
            ∨ pTo < 0 ∨ pTo ≥ s.m_contentItem.m_items.length) → moveItem s pFrom pTo = s)
      ∧ (∀ pos : Int, (pos < 0 ∨ pos ≥ s.m_contentItem.m_items.length) →
          removeItemAt sc s pos = s)
      ∧ (∀ item : ItemId, item ∉ s.m_contentItem.m_items → removeItem sc s item = s)
      ∧ (∀ index : Int, (index < 0 ∨ index ≥ s.m_contentItem.m_items.length) →
          contentChildren_at (some s) index = none) := by
  refine ⟨?_, ?_, ?_, ?_, ?_⟩
  · intro i h
    unfold setCurrentIndex
    rcases h with h | h
    · simp [h]
    · simp [h]
  · intro pFrom pTo h
    unfold moveItem
    rcases h with h | h | h | h
    · simp [h]
    · simp [h]
    · simp [h]
    · simp [h]
  · intro pos h
    unfold removeItemAt
    rcases h with h | h
    · simp [h]
    · simp [h]
  · intro item h
    unfold removeItem
    simp [h]
  · intro index h
    unfold contentChildren_at
    rcases h with h | h
    · simp [h]
    · simp [h]

/-- C7 at concrete inputs: a view with the two columns 0 and 1; the index 7,
the move from 0 to 2, the position -1, the item 5 and the index 2. -/
theorem C7_out_of_range_witness :
    setCurrentIndex refScene (sampleView [0, 1] 0) 7 = sampleView [0, 1] 0
      ∧ moveItem (sampleView [0, 1] 0) 0 2 = sampleView [0, 1] 0
      ∧ removeItemAt refScene (sampleView [0, 1] 0) (-1) = sampleView [0, 1] 0
      ∧ removeItem refScene (sampleView [0, 1] 0) 5 = sampleView [0, 1] 0
      ∧ contentChildren_at (some (sampleView [0, 1] 0)) 2 = none :=
  ⟨(C7_out_of_range_calls_are_noops refScene (sampleView [0, 1] 0)).1 7
      (Or.inr (by decide)),
   (C7_out_of_range_calls_are_noops refScene (sampleView [0, 1] 0)).2.1 0 2
      (Or.inr (Or.inr (Or.inr (by decide)))),
   (C7_out_of_range_calls_are_noops refScene (sampleView [0, 1] 0)).2.2.1 (-1)
      (Or.inl (by decide)),
   (C7_out_of_range_calls_are_noops refScene (sampleView [0, 1] 0)).2.2.2.1 5
      (by decide),
   (C7_out_of_range_calls_are_noops refScene (sampleView [0, 1] 0)).2.2.2.2 2
      (Or.inr (by decide))⟩

/-- C9 as stated fails on a list that names one item twice: after
`layoutItems` on the list `[0, 0]` the first listed item is at `x = 100`, the
position written for its second occurrence, not at `x = 0`. -/
theorem C9_repeated_item_counterexample :
    (sampleView [0, 0] 0).m_contentItem.m_items.head? = some 0
      ∧ ((layoutItems (sampleView [0, 0] 0)).items 0).x = 100
      ∧ ((layoutItems (sampleView [0, 0] 0)).items 0).x ≠ 0 := by
  refine ⟨rfl, ?_, ?_⟩ <;>
    norm_num [layoutItems, layoutLoop, sampleView, setBoundedX, childWidth,
      ColumnsView.setItem, qBound]

/-- C9, amended: for every item list without repeated items, after
`layoutItems` the list is as before, the first item is at `x = 0`, the item at
position `k` is at the sum of the widths of the items before it, every item has
`y = 0` and the content height, and the content width is the sum of all item
widths. -/
theorem C9_layout_left_to_right (s : ColumnsView) (hnd : s.m_contentItem.m_items.Nodup) :
    (layoutItems s).m_contentItem.m_items = s.m_contentItem.m_items
      ∧ (∀ first, s.m_contentItem.m_items.head? = some first →
          ((layoutItems s).items first).x = 0)
      ∧ (∀ (k : Nat) (hk : k < s.m_contentItem.m_items.length),
          ((layoutItems s).items s.m_contentItem.m_items[k]).x
              = ((s.m_contentItem.m_items.take k).map
                  (fun i => ((layoutItems s).items i).width)).sum
            ∧ ((layoutItems s).items s.m_contentItem.m_items[k]).y = 0
            ∧ ((layoutItems s).items s.m_contentItem.m_items[k]).height
                = (layoutItems s).m_contentItem.height)
      ∧ (layoutItems s).m_contentItem.width
          = (s.m_contentItem.m_items.map (fun i => ((layoutItems s).items i).width)).sum := by
  obtain ⟨hw, hk⟩ := layoutLoop_spec s.m_contentItem.m_items s 0 hnd
  have hc := (layoutLoop_frame s.m_contentItem.m_items s 0).1
  have hitems : (layoutItems s).items = (layoutLoop s s.m_contentItem.m_items 0).1.items := by
    simp only [layoutItems]
    exact (setBoundedX_frame _ _).1
  have hlist : (layoutItems s).m_contentItem.m_items = s.m_contentItem.m_items := by
    simp only [layoutItems]
    rw [(setBoundedX_frame _ _).2.1]
    show (layoutLoop s s.m_contentItem.m_items 0).1.m_contentItem.m_items = _
    rw [hc]
  have hheight : (layoutItems s).m_contentItem.height = s.m_contentItem.height := by
    simp only [layoutItems]
    rw [(setBoundedX_frame _ _).2.2.2]
    show (layoutLoop s s.m_contentItem.m_items 0).1.m_contentItem.height = _
    rw [hc]
  have hwidth : (layoutItems s).m_contentItem.width
      = (layoutLoop s s.m_contentItem.m_items 0).2 := by
    simp only [layoutItems]
    rw [(setBoundedX_frame _ _).2.2.1]
  have hkth : ∀ (k : Nat) (hk : k < s.m_contentItem.m_items.length),
      ((layoutItems s).items s.m_contentItem.m_items[k]).x
          = ((s.m_contentItem.m_items.take k).map
              (fun i => ((layoutItems s).items i).width)).sum
        ∧ ((layoutItems s).items s.m_contentItem.m_items[k]).y = 0
        ∧ ((layoutItems s).items s.m_contentItem.m_items[k]).height
            = (layoutItems s).m_contentItem.height := by
    intro k hk'
    obtain ⟨hx, hy, hh⟩ := hk k hk'
    rw [hitems, hheight]
    refine ⟨?_, hy, hh⟩
    rw [hx, zero_add]
  refine ⟨hlist, ?_, hkth, ?_⟩
  · intro first hfirst
    cases hl : s.m_contentItem.m_items with
    | nil => rw [hl] at hfirst; simp at hfirst
    | cons a rest =>
      rw [hl] at hfirst
      simp only [List.head?_cons, Option.some.injEq] at hfirst
      have h0 : 0 < s.m_contentItem.m_items.length := by rw [hl]; simp
      have := (hkth 0 h0).1
      simp only [hl, List.getElem_cons_zero, List.take_zero, List.map_nil, List.sum_nil] at this
      rw [← hfirst]
      exact this
  · rw [hwidth, hw, hitems, zero_add]

/-- C9, amended, at a concrete input: a view with the columns 0, 1, 2. -/
theorem C9_layout_witness :
    (layoutItems (sampleView [0, 1, 2] 0)).m_contentItem.m_items
        = (sampleView [0, 1, 2] 0).m_contentItem.m_items
      ∧ (∀ first, (sampleView [0, 1, 2] 0).m_contentItem.m_items.head? = some first →
          ((layoutItems (sampleView [0, 1, 2] 0)).items first).x = 0)
      ∧ (∀ (k : Nat) (hk : k < (sampleView [0, 1, 2] 0).m_contentItem.m_items.length),
          ((layoutItems (sampleView [0, 1, 2] 0)).items
                (sampleView [0, 1, 2] 0).m_contentItem.m_items[k]).x
              = (((sampleView [0, 1, 2] 0).m_contentItem.m_items.take k).map
                  (fun i => ((layoutItems (sampleView [0, 1, 2] 0)).items i).width)).sum
            ∧ ((layoutItems (sampleView [0, 1, 2] 0)).items
                (sampleView [0, 1, 2] 0).m_contentItem.m_items[k]).y = 0
            ∧ ((layoutItems (sampleView [0, 1, 2] 0)).items
                (sampleView [0, 1, 2] 0).m_contentItem.m_items[k]).height
                = (layoutItems (sampleView [0, 1, 2] 0)).m_contentItem.height)
      ∧ (layoutItems (sampleView [0, 1, 2] 0)).m_contentItem.width
          = ((sampleView [0, 1, 2] 0).m_contentItem.m_items.map
              (fun i => ((layoutItems (sampleView [0, 1, 2] 0)).items i).width)).sum :=
  C9_layout_left_to_right (sampleView [0, 1, 2] 0) (by decide)

/-- `qBound` returns a value that already lies between the bounds. -/
theorem qBound_of_mem (lo v hi : qreal) (h1 : lo ≤ v) (h2 : v ≤ hi) : qBound lo v hi = v := by
  unfold qBound
  rw [min_eq_right h2, max_eq_right h1]

/-- With the content item parented, `animateX` on a state whose first visible
item was just set starts the animation towards the clamped value and keeps
everything else. -/
theorem animateX_spec (s : ColumnsView) (newX : qreal) (h : s.m_contentItem.hasParent = true) :
    (animateX s newX).m_contentItem.m_firstVisibleItem = s.m_contentItem.m_firstVisibleItem
      ∧ (animateX s newX).m_contentItem.m_slideAnim.running = true
      ∧ (animateX s newX).m_contentItem.m_slideAnim.endValue
          = qBound (min 0 (-s.m_contentItem.width + s.width)) newX 0
      ∧ (animateX s newX).items = s.items := by
  unfold animateX
  simp [h]

/-- C10 as stated fails: with three columns of width 100 in a view of width
150, scrolled to `x = -140`, the column under the left edge is column 1, the
release records column 2 (at `x = 200`) as first visible item, and the
animation ends at `-150`, the scroll limit, not at `-200`. -/
theorem C10_clamped_end_value_counterexample :
    refScene.childAt (sampleView [0, 1, 2] (-140))
        (-(sampleView [0, 1, 2] (-140)).m_contentItem.x) 0 = some 1
      ∧ (mouseReleaseEvent refScene (sampleView [0, 1, 2] (-140))).m_contentItem.m_firstVisibleItem
          = some (ItemRef.child 2)
      ∧ (mouseReleaseEvent refScene (sampleView [0, 1, 2] (-140))).m_contentItem.m_slideAnim.endValue
          = -150
      ∧ -((mouseReleaseEvent refScene (sampleView [0, 1, 2] (-140))).items 2).x = -200 := by
  refine ⟨?_, ?_, ?_, ?_⟩ <;>
    norm_num [mouseReleaseEvent, refScene, sampleView, animateX, qBound, List.find?]

/-- C10, amended: when the content item is parented and some column lies under
the view's left edge, `mouseReleaseEvent` records as first visible item that
column or the one found just past its right edge, and starts an animation
whose end value is `-x` of the recorded item clamped into
`[min(0, viewWidth - contentWidth), 0]`; the end value is `-x` of the recorded
item whenever `-x` lies in that range. -/
theorem C10_release_animates_to_clamped_column_edge
    (sc : Scene) (s : ColumnsView) (firstItem : ItemId)
    (hparent : s.m_contentItem.hasParent = true)
    (hfirst : sc.childAt s (-s.m_contentItem.x) 0 = some firstItem) :
    ∃ target,
      (target = firstItem
          ∨ sc.childAt s ((s.items firstItem).x + (s.items firstItem).width + 1) 0
              = some target)
        ∧ (mouseReleaseEvent sc s).m_contentItem.m_firstVisibleItem
            = some (ItemRef.child target)
        ∧ (mouseReleaseEvent sc s).m_contentItem.m_slideAnim.running = true
        ∧ (mouseReleaseEvent sc s).m_contentItem.m_slideAnim.endValue
            = qBound (min 0 (-s.m_contentItem.width + s.width)) (-(s.items target).x) 0
        ∧ (min 0 (-s.m_contentItem.width + s.width) ≤ -(s.items target).x →
            -(s.items target).x ≤ 0 →
            (mouseReleaseEvent sc s).m_contentItem.m_slideAnim.endValue
              = -((mouseReleaseEvent sc s).items target).x) := by
  have toTarget : ∀ target : ItemId,
      mouseReleaseEvent sc s
          = animateX
              { s with m_contentItem :=
                  { s.m_contentItem with m_firstVisibleItem := some (ItemRef.child target) } }
              (-(s.items target).x) →
      (mouseReleaseEvent sc s).m_contentItem.m_firstVisibleItem
            = some (ItemRef.child target)
        ∧ (mouseReleaseEvent sc s).m_contentItem.m_slideAnim.running = true
        ∧ (mouseReleaseEvent sc s).m_contentItem.m_slideAnim.endValue
            = qBound (min 0 (-s.m_contentItem.width + s.width)) (-(s.items target).x) 0
        ∧ (min 0 (-s.m_contentItem.width + s.width) ≤ -(s.items target).x →
            -(s.items target).x ≤ 0 →
            (mouseReleaseEvent sc s).m_contentItem.m_slideAnim.endValue
              = -((mouseReleaseEvent sc s).items target).x) := by
    intro target heq
    obtain ⟨h1, h2, h3, h4⟩ := animateX_spec
      { s with m_contentItem :=
          { s.m_contentItem with m_firstVisibleItem := some (ItemRef.child target) } }
      (-(s.items target).x) hparent
    rw [heq]
    refine ⟨h1, h2, h3, ?_⟩
    intro hlo hhi
    rw [h3, h4]
    exact qBound_of_mem _ _ _ hlo hhi
  cases hnext : sc.childAt s ((s.items firstItem).x + (s.items firstItem).width + 1) 0 with
  | none =>
    refine ⟨firstItem, Or.inl rfl, toTarget firstItem ?_⟩
    simp only [mouseReleaseEvent, hfirst, hnext]
  | some nextItem =>
    by_cases hc1 : s.m_contentItem.width - (-s.m_contentItem.x + s.width)
        < -s.m_contentItem.x - (s.items firstItem).x
    · refine ⟨nextItem, Or.inr rfl, toTarget nextItem ?_⟩
      simp only [mouseReleaseEvent, hfirst, hnext, hc1, if_true]
    · by_cases hc2 : -s.m_contentItem.x
          ≤ (s.items firstItem).x + (s.items firstItem).width / 2
      · refine ⟨firstItem, Or.inl rfl, toTarget firstItem ?_⟩
        simp only [mouseReleaseEvent, hfirst, hnext, hc1, hc2, if_true, if_false]
      · refine ⟨nextItem, Or.inr rfl, toTarget nextItem ?_⟩
        simp only [mouseReleaseEvent, hfirst, hnext, hc1, hc2, if_false]

/-- C10, amended, at a concrete input: three columns of width 100 in a view of
width 150, scrolled to `x = -60`; column 0 is under the left edge. -/
theorem C10_release_witness :
    ∃ target,
      (target = 0
          ∨ refScene.childAt (sampleView [0, 1, 2] (-60))
              (((sampleView [0, 1, 2] (-60)).items 0).x
                + ((sampleView [0, 1, 2] (-60)).items 0).width + 1) 0 = some target)
        ∧ (mouseReleaseEvent refScene (sampleView [0, 1, 2] (-60))).m_contentItem.m_firstVisibleItem
            = some (ItemRef.child target)
        ∧ (mouseReleaseEvent refScene (sampleView [0, 1, 2] (-60))).m_contentItem.m_slideAnim.running
            = true
        ∧ (mouseReleaseEvent refScene (sampleView [0, 1, 2] (-60))).m_contentItem.m_slideAnim.endValue
            = qBound
                (min 0 (-(sampleView [0, 1, 2] (-60)).m_contentItem.width
                  + (sampleView [0, 1, 2] (-60)).width))
                (-((sampleView [0, 1, 2] (-60)).items target).x) 0
        ∧ (min 0 (-(sampleView [0, 1, 2] (-60)).m_contentItem.width
              + (sampleView [0, 1, 2] (-60)).width)
              ≤ -((sampleView [0, 1, 2] (-60)).items target).x →
            -((sampleView [0, 1, 2] (-60)).items target).x ≤ 0 →
            (mouseReleaseEvent refScene (sampleView [0, 1, 2] (-60))).m_contentItem.m_slideAnim.endValue
              = -((mouseReleaseEvent refScene (sampleView [0, 1, 2] (-60))).items target).x) :=
  C10_release_animates_to_clamped_column_edge refScene (sampleView [0, 1, 2] (-60)) 0 rfl
    (by norm_num [refScene, sampleView, List.find?])

/-- The layout loop leaves the view's current index, current item and parent
flag alone. -/
theorem layoutLoop_view (l : List ItemId) :
    ∀ (s : ColumnsView) (p : qreal),
      (layoutLoop s l p).1.m_currentIndex = s.m_currentIndex
        ∧ (layoutLoop s l p).1.m_currentItem = s.m_currentItem
        ∧ (layoutLoop s l p).1.hasParent = s.hasParent := by
  induction l with
  | nil => intro s p; simp [layoutLoop]
  | cons child rest ih =>
    intro s p
    simp only [layoutLoop]
    obtain ⟨h1, h2, h3⟩ := ih
      ((s.setItem child
          { s.items child with width := childWidth s child,
                               height := s.m_contentItem.height }).setItem child
        { (s.setItem child
            { s.items child with width := childWidth s child,
                                 height := s.m_contentItem.height }).items child with
          x := p, y := 0 })
      (p + (((s.setItem child
          { s.items child with width := childWidth s child,
                               height := s.m_contentItem.height }).setItem child
        { (s.setItem child
            { s.items child with width := childWidth s child,
                                 height := s.m_contentItem.height }).items child with
          x := p, y := 0 }).items child).width)
    exact ⟨h1, h2, h3⟩

/-- `layoutItems` leaves the item list, the current index, the current item
and the view's parent flag alone. -/
theorem layoutItems_view (s : ColumnsView) :
    (layoutItems s).m_contentItem.m_items = s.m_contentItem.m_items
      ∧ (layoutItems s).m_currentIndex = s.m_currentIndex
      ∧ (layoutItems s).m_currentItem = s.m_currentItem
      ∧ (layoutItems s).hasParent = s.hasParent := by
  obtain ⟨h1, h2, h3⟩ := layoutLoop_view s.m_contentItem.m_items s 0
  have hc := (layoutLoop_frame s.m_contentItem.m_items s 0).1
  simp only [layoutItems, setBoundedX]
  split_ifs <;> simp [h1, h2, h3, hc]

/-- `animateX` leaves the item list, the child items, the current index, the
current item and the view's parent flag alone. -/
theorem animateX_view (s : ColumnsView) (newX : qreal) :
    (animateX s newX).m_contentItem.m_items = s.m_contentItem.m_items
      ∧ (animateX s newX).items = s.items
      ∧ (animateX s newX).m_currentIndex = s.m_currentIndex
      ∧ (animateX s newX).m_currentItem = s.m_currentItem
      ∧ (animateX s newX).hasParent = s.hasParent := by
  unfold animateX
  split_ifs <;> simp

/-- `setCurrentIndex` leaves the item list, the parent of every child item
and the view's parent flag alone. -/
theorem setCurrentIndex_frame (sc : Scene) (s : ColumnsView) (index : Int) :
    (setCurrentIndex sc s index).m_contentItem.m_items = s.m_contentItem.m_items
      ∧ (setCurrentIndex sc s index).items = s.items
      ∧ (setCurrentIndex sc s index).hasParent = s.hasParent := by
  unfold setCurrentIndex
  split_ifs with h1 h2
  · exact ⟨rfl, rfl, rfl⟩
  · exact ⟨rfl, rfl, rfl⟩
  · cases hget : s.m_contentItem.m_items[index.toNat]? with
    | none => simp [hget]
    | some item =>
      simp only [hget]
      split_ifs
      · exact ⟨(animateX_view _ _).1, (animateX_view _ _).2.1, (animateX_view _ _).2.2.2.2⟩
      · exact ⟨rfl, rfl, rfl⟩

/-- On a parented view, `setCurrentIndex` with an index of the list other than
the current one makes it the current index and the item stored there the
current item. -/
theorem setCurrentIndex_valid (sc : Scene) (s : ColumnsView) (index : Int)
    (hp : s.hasParent = true) (hne : s.m_currentIndex ≠ index) (h0 : 0 ≤ index)
    (hlt : index < s.m_contentItem.m_items.length) :
    (setCurrentIndex sc s index).m_currentIndex = index
      ∧ (setCurrentIndex sc s index).m_currentItem = s.m_contentItem.m_items[index.toNat]? := by
  have hlt' : index.toNat < s.m_contentItem.m_items.length := by omega
  have hm1 : ¬ index < -1 := by omega
  have hge : ¬ (s.m_contentItem.m_items.length : Int) ≤ index := by omega
  have hne1 : index ≠ -1 := by omega
  unfold setCurrentIndex
  simp only [hp, hne, hm1, hge, hne1, Bool.not_true, decide_False, Bool.or_self, Bool.false_eq_true,
    if_false, ge_iff_le]
  rw [List.getElem?_eq_getElem hlt']
  simp only
  split_ifs
  · exact ⟨(animateX_view _ _).2.2.1, (animateX_view _ _).2.2.2.1⟩
  · exact ⟨rfl, rfl⟩

/-- `setCurrentIndex` with the current index, or with an index outside the
list, returns the state it was given. -/
theorem setCurrentIndex_noop (sc : Scene) (s : ColumnsView) (index : Int)
    (h : s.m_currentIndex = index ∨ index < -1
      ∨ (s.m_contentItem.m_items.length : Int) ≤ index) :
    setCurrentIndex sc s index = s := by
  unfold setCurrentIndex
  rcases h with h | h | h
  · simp [h]
  · simp [h]
  · simp [h]

/-- The toolkit's reparenting of a listed item to the content item leaves the
item list, the current index, the current item and the view's parent flag
alone. -/
theorem setParentItemContent_view (s : ColumnsView) (item : ItemId)
    (hmem : item ∈ s.m_contentItem.m_items) :
    (setParentItemContent s item).m_contentItem.m_items = s.m_contentItem.m_items
      ∧ (setParentItemContent s item).m_currentIndex = s.m_currentIndex
      ∧ (setParentItemContent s item).m_currentItem = s.m_currentItem
      ∧ (setParentItemContent s item).hasParent = s.hasParent := by
  have key : ∀ v : QQuickItem,
      (itemChildAdded (s.setItem item v) item).m_contentItem.m_items = s.m_contentItem.m_items
        ∧ (itemChildAdded (s.setItem item v) item).m_currentIndex = s.m_currentIndex
        ∧ (itemChildAdded (s.setItem item v) item).m_currentItem = s.m_currentItem
        ∧ (itemChildAdded (s.setItem item v) item).hasParent = s.hasParent := by
    intro v
    have hmem' : item ∈ (s.setItem item v).m_contentItem.m_items := hmem
    unfold itemChildAdded
    simp only [hmem', if_true]
    exact layoutItems_view (s.setItem item v)
  unfold setParentItemContent
  cases hpar : (s.items item).parentItem with
  | contentItem => exact ⟨rfl, rfl, rfl, rfl⟩
  | null => exact key _
  | view => exact key _
  | other => exact key _

/-- `insertItem` of an item that is not listed: there is the state `s1` with
the item put at the bounded position, and the current index and item are those
that `setCurrentIndex(pos)` leaves on `s1`. -/
theorem insertItem_view (sc : Scene) (s : ColumnsView) (pos : Int) (item : ItemId)
    (hnot : item ∉ s.m_contentItem.m_items) :
    ∃ s1 : ColumnsView,
      s1.m_contentItem.m_items
          = s.m_contentItem.m_items.insertIdx
              (qBound 0 pos (s.m_contentItem.m_items.length : Int)).toNat item
        ∧ s1.m_currentIndex = s.m_currentIndex
        ∧ s1.m_currentItem = s.m_currentItem
        ∧ s1.hasParent = s.hasParent
        ∧ (insertItem sc s pos item).m_contentItem.m_items = s1.m_contentItem.m_items
        ∧ (insertItem sc s pos item).m_currentIndex = (setCurrentIndex sc s1 pos).m_currentIndex
        ∧ (insertItem sc s pos item).m_currentItem = (setCurrentIndex sc s1 pos).m_currentItem
        ∧ (insertItem sc s pos item).hasParent = s.hasParent := by
  have hle : (qBound 0 pos (s.m_contentItem.m_items.length : Int)).toNat
      ≤ s.m_contentItem.m_items.length := by
    unfold qBound
    omega
  have hfr := setCurrentIndex_frame sc
    { s with m_contentItem :=
      { s.m_contentItem with
          m_items := s.m_contentItem.m_items.insertIdx
            (qBound 0 pos (s.m_contentItem.m_items.length : Int)).toNat item,
          m_firstVisibleItem := some (ItemRef.child item) } } pos
  have hmem : item ∈ (setCurrentIndex sc
      { s with m_contentItem :=
        { s.m_contentItem with
            m_items := s.m_contentItem.m_items.insertIdx
              (qBound 0 pos (s.m_contentItem.m_items.length : Int)).toNat item,
            m_firstVisibleItem := some (ItemRef.child item) } } pos).m_contentItem.m_items := by
    rw [hfr.1]
    exact (List.mem_insertIdx hle).mpr (Or.inl rfl)
  obtain ⟨p1, p2, p3, p4⟩ := setParentItemContent_view _ item hmem
  have hc : s.m_contentItem.m_items.contains item = false := by simpa using hnot
  refine ⟨{ s with m_contentItem :=
      { s.m_contentItem with
          m_items := s.m_contentItem.m_items.insertIdx
            (qBound 0 pos (s.m_contentItem.m_items.length : Int)).toNat item,
          m_firstVisibleItem := some (ItemRef.child item) } }, rfl, rfl, rfl, rfl, ?_⟩
  unfold insertItem
  simp only [hc, Bool.false_eq_true, if_false]
  exact ⟨p1.trans hfr.1, p2, p3, p4.trans hfr.2.2⟩

/-- On a parented view whose current index is not the list length, `addItem`
of an item that is not listed appends it and makes it the current item. -/
theorem addItem_view (sc : Scene) (s : ColumnsView) (item : ItemId)
    (hp : s.hasParent = true) (hnot : item ∉ s.m_contentItem.m_items)
    (hidx : s.m_currentIndex ≠ s.m_contentItem.m_items.length) :
    (addItem sc s item).m_contentItem.m_items = s.m_contentItem.m_items ++ [item]
      ∧ (addItem sc s item).m_currentIndex = s.m_contentItem.m_items.length
      ∧ (addItem sc s item).m_currentItem = some item
      ∧ (addItem sc s item).hasParent = true := by
  have hb : (qBound 0 (s.m_contentItem.m_items.length : Int)
      (s.m_contentItem.m_items.length : Int)).toNat = s.m_contentItem.m_items.length := by
    unfold qBound
    omega
  obtain ⟨s1, e1, e2, e3, e4, h1, h2, h3, h4⟩ :=
    insertItem_view sc s (s.m_contentItem.m_items.length : Int) item hnot
  rw [hb, List.insertIdx_length_self] at e1
  obtain ⟨v1, v2⟩ := setCurrentIndex_valid sc s1 (s.m_contentItem.m_items.length : Int)
    (e4.trans hp) (by rw [e2]; exact hidx) (by omega) (by rw [e1]; simp)
  unfold addItem
  refine ⟨h1.trans e1, h2.trans v1, h3.trans (v2.trans ?_), h4.trans hp⟩
  rw [e1]
  simp

/-- `moveItem` with both positions in the list moves the item and leaves the
current index and the current item as they were. -/
theorem moveItem_view (s : ColumnsView) (pFrom pTo : Int)
    (hf0 : 0 ≤ pFrom) (hf : pFrom < s.m_contentItem.m_items.length)
    (ht0 : 0 ≤ pTo) (ht : pTo < s.m_contentItem.m_items.length) :
    (moveItem s pFrom pTo).m_contentItem.m_items
        = qlistMove s.m_contentItem.m_items pFrom.toNat pTo.toNat
      ∧ (moveItem s pFrom pTo).m_currentIndex = s.m_currentIndex
      ∧ (moveItem s pFrom pTo).m_currentItem = s.m_currentItem := by
  have hne : s.m_contentItem.m_items.isEmpty = false := by
    cases hl : s.m_contentItem.m_items with
    | nil => rw [hl] at hf; simp at hf; omega
    | cons a l => rfl
  have hf0' : ¬ pFrom < 0 := by omega
  have hf' : ¬ (s.m_contentItem.m_items.length : Int) ≤ pFrom := by omega
  have ht0' : ¬ pTo < 0 := by omega
  have ht' : ¬ (s.m_contentItem.m_items.length : Int) ≤ pTo := by omega
  unfold moveItem
  simp only [hne, hf0', hf', ht0', ht', decide_False, Bool.or_self, Bool.false_eq_true, if_false,
    ge_iff_le]
  obtain ⟨l1, l2, l3, _⟩ := layoutItems_view
    { s with m_contentItem :=
      { s.m_contentItem with
          m_items := qlistMove s.m_contentItem.m_items pFrom.toNat pTo.toNat } }
  exact ⟨l1, l2, l3⟩

/-- On an empty item list with current index 0, the content item's reaction to
a child that left keeps the list empty and the current index 0. -/
theorem itemChildRemoved_empty (sc : Scene) (s : ColumnsView) (item : ItemId)
    (hl : s.m_contentItem.m_items = []) (hidx : s.m_currentIndex = 0) :
    (itemChildRemoved sc s item).m_contentItem.m_items = []
      ∧ (itemChildRemoved sc s item).m_currentIndex = 0 := by
  obtain ⟨l1, l2, _, _⟩ := layoutItems_view
    { s with m_contentItem :=
      { s.m_contentItem with m_items := removeAll s.m_contentItem.m_items item } }
  have l1' : (layoutItems
      { s with m_contentItem :=
        { s.m_contentItem with m_items := removeAll s.m_contentItem.m_items item } }
      ).m_contentItem.m_items = [] := by
    rw [l1]; simp [hl, removeAll]
  have l2' : (layoutItems
      { s with m_contentItem :=
        { s.m_contentItem with m_items := removeAll s.m_contentItem.m_items item } }
      ).m_currentIndex = 0 := by
    rw [l2]; exact hidx
  have hq : qBound (0 : Int) (indexOf s.m_contentItem.m_items item - 1)
      (((layoutItems
        { s with m_contentItem :=
          { s.m_contentItem with m_items := removeAll s.m_contentItem.m_items item } }
        ).m_contentItem.m_items.length : Int) - 1) = 0 := by
    rw [l1']
    simp [qBound, hl, indexOf]
  unfold itemChildRemoved
  simp only
  rw [hq]
  split_ifs
  · rw [setCurrentIndex_noop sc _ 0 (Or.inl l2')]
    exact ⟨l1', l2'⟩
  · exact ⟨l1', l2'⟩

/-- Removing the only item of a view whose current index is 0 empties the list
and leaves the current index at 0. -/
theorem removeItem_only_item (sc : Scene) (s : ColumnsView) (item : ItemId)
    (hl : s.m_contentItem.m_items = [item]) (hidx : s.m_currentIndex = 0) :
    (removeItem sc s item).m_contentItem.m_items = []
      ∧ (removeItem sc s item).m_currentIndex = 0 := by
  have hrem : removeAll s.m_contentItem.m_items item = [] := by
    simp [hl, removeAll]
  unfold removeItem
  simp only [hl, List.isEmpty_cons, List.contains_cons, beq_self_eq_true, Bool.true_or,
    Bool.not_true, Bool.or_self, Bool.false_eq_true, if_false]
  split_ifs
  · exact ⟨by simp [removeAll], hidx⟩
  · unfold setParentItemNull
    split
    · exact ⟨by simp [removeAll], hidx⟩
    · exact itemChildRemoved_empty sc _ item (by simp [removeAll]) hidx
    · exact ⟨by simp [ColumnsView.setItem, removeAll], hidx⟩

/-- C12 (the code departs from the claim): from the empty, parented view, for
every scene, (1) `addItem(0)`, `addItem(1)`, `moveItem(0, 1)` leaves the list
`[1, 0]` with current index 1 and current item 1, while item 0 is stored at
index 1; (2) `insertItem(0, 0)`, `insertItem(0, 1)` leaves the list `[1, 0]`
with current index 0 and current item 0, while item 1 is stored at index 0;
(3) `addItem(0)`, `removeItem(0)` leaves the empty list with current index 0,
outside `[-1, 0)`. -/
theorem C12_current_item_invariant_broken (sc : Scene) :
    ((moveItem (addItem sc (addItem sc emptyView 0) 1) 0 1).m_contentItem.m_items = [1, 0]
        ∧ (moveItem (addItem sc (addItem sc emptyView 0) 1) 0 1).m_currentIndex = 1
        ∧ (moveItem (addItem sc (addItem sc emptyView 0) 1) 0 1).m_currentItem = some 1)
      ∧ ((insertItem sc (insertItem sc emptyView 0 0) 0 1).m_contentItem.m_items = [1, 0]
        ∧ (insertItem sc (insertItem sc emptyView 0 0) 0 1).m_currentIndex = 0
        ∧ (insertItem sc (insertItem sc emptyView 0 0) 0 1).m_currentItem = some 0)
      ∧ ((removeItem sc (addItem sc emptyView 0) 0).m_contentItem.m_items = []
        ∧ (removeItem sc (addItem sc emptyView 0) 0).m_currentIndex = 0) := by
  obtain ⟨a1, a2, a3, a4⟩ := addItem_view sc emptyView 0 rfl (by simp [emptyView, sampleView])
    (by simp [emptyView, sampleView])
  have a1' : (addItem sc emptyView 0).m_contentItem.m_items = [0] := by
    rw [a1]; rfl
  have a2' : (addItem sc emptyView 0).m_currentIndex = 0 := by
    rw [a2]; rfl
  refine ⟨?_, ?_, ?_⟩
  · obtain ⟨b1, b2, b3, _⟩ := addItem_view sc (addItem sc emptyView 0) 1 a4
      (by rw [a1']; decide) (by rw [a1', a2']; decide)
    rw [a1'] at b1 b2
    obtain ⟨m1, m2, m3⟩ := moveItem_view (addItem sc (addItem sc emptyView 0) 1) 0 1
      (by decide) (by rw [b1]; decide) (by decide) (by rw [b1]; decide)
    rw [b1] at m1
    exact ⟨m1.trans (by decide), m2.trans b2, m3.trans b3⟩
  · have hins : insertItem sc emptyView 0 0 = addItem sc emptyView 0 := rfl
    rw [hins]
    obtain ⟨s1, e1, e2, e3, _, i1, i2, i3, _⟩ :=
      insertItem_view sc (addItem sc emptyView 0) 0 1 (by rw [a1']; decide)
    rw [setCurrentIndex_noop sc s1 0 (Or.inl (e2.trans a2'))] at i2 i3
    rw [a1'] at e1
    exact ⟨i1.trans (e1.trans (by decide)), i2.trans (e2.trans a2'), i3.trans (e3.trans a3)⟩
  · exact removeItem_only_item sc (addItem sc emptyView 0) 0 a1' a2'

/-- The width `childWidth` gives is at most the larger of the view width and
the column width, for a view of non-negative width. -/
theorem childWidth_le_max (s : ColumnsView) (child : ItemId) (hw : 0 ≤ s.width) :
    childWidth s child ≤ max s.width s.m_contentItem.m_columnWidth := by
  unfold childWidth
  by_cases hp : s.m_contentItem.hasParent = true
  · simp only [hp, Bool.not_true, Bool.false_eq_true, if_false]
    cases s.m_contentItem.m_columnResizeMode with
    | SingleColumn => exact le_max_left _ _
    | FixedColumns =>
      simp only
      split_ifs
      · unfold qBound
        exact max_le (le_max_right _ _) (le_trans (min_le_left _ _) (le_max_left _ _))
      · exact le_trans (min_le_left _ _) (le_max_left _ _)
    | DynamicColumns =>
      simp only
      split_ifs
      · exact le_trans (min_le_left _ _) (le_max_left _ _)
      · exact le_trans (min_le_left _ _) (le_max_left _ _)
  · simp only [hp, Bool.not_false, if_true]
    exact le_trans hw (le_max_left _ _)

/-- C13 (the code departs from the claim): in fixed-columns mode, with view
width 100, column width 150 and one reserved column, `childWidth` of the
stretchable item is 150, more than the view width. -/
theorem C13_stretchable_item_wider_than_view :
    narrowView.width = 100
      ∧ narrowView.m_contentItem.m_columnResizeMode = ColumnResizeMode.FixedColumns
      ∧ narrowView.m_contentItem.m_stretchableItem = some 0
      ∧ childWidth narrowView 0 = 150
      ∧ ¬ (childWidth narrowView 0 ≤ narrowView.width) := by
  refine ⟨rfl, rfl, rfl, ?_, ?_⟩ <;>
    norm_num [childWidth, narrowView, sampleView, qBound]

end Kirigami
